import Mathlib

/-!
Shallow embedding of the web-icons-generator-cli-mcp repository
(src/generator.ts, src/mcp.ts, src/utils.ts, src/types.ts, src/cli.ts).

JavaScript strings are modelled as `List Char`.  Node's `path` helpers are
modelled for ordinary relative/absolute POSIX paths (no trailing-slash or
all-dots special cases, which never arise in the claims).  The filesystem is
modelled as a decidable predicate `List Char → Bool` telling which absolute
paths are accessible.
-/

set_option maxRecDepth 65536

namespace WebIcons

/-- Model of Node `path.basename`: strip trailing slashes, then keep the part
after the last remaining slash. -/
def pathBasename (p : List Char) : List Char :=
  let stripped := (p.reverse.dropWhile (fun c => c = '/')).reverse
  (stripped.reverse.takeWhile (fun c => c ≠ '/')).reverse

/-- Model of JavaScript `String.prototype.includes`. -/
def strIncludes (hay needle : List Char) : Bool :=
  decide (needle <:+: hay)

/-- Model of Node `path.join(a, b)` for a non-empty `a` and a plain relative
`b` (the only shape used in this code base). -/
def pathJoin (a b : List Char) : List Char :=
  a ++ ('/' :: b)

/-- Model of Node `path.extname`: the substring of the basename from its last
dot to the end; empty when there is no dot or the only dot is the leading
character of the basename. -/
def pathExtname (p : List Char) : List Char :=
  let base := (p.reverse.takeWhile (fun c => c ≠ '/')).reverse
  let afterRev := base.reverse.takeWhile (fun c => c ≠ '.')
  match base.reverse.dropWhile (fun c => c ≠ '.') with
  | [] => []
  | [_] => []
  | _ :: _ :: _ => '.' :: afterRev.reverse

/-- `GenerationMode` from src/types.ts. -/
inductive GenerationMode where
  | traditional
  | nextjs
  | auto
deriving DecidableEq, Repr

/-- The concrete two-valued mode stored in `IconGenerator.mode`
(src/generator.ts line 8: `'traditional' | 'nextjs'`). -/
inductive ResolvedMode where
  | traditional
  | nextjs
deriving DecidableEq, Repr

/-- `GeneratorOptions` from src/types.ts.  `mode?: GenerationMode` is an
optional field, hence `Option GenerationMode` (absence = `undefined`). -/
structure GeneratorOptions where
  sourcePath : List Char
  outputDir : List Char
  color : Option (List Char)
  mode : Option GenerationMode

/-- `IconGenerator.resolveMode` (src/generator.ts lines 16-23).

```
if (mode === 'auto') {
  const outputDirName = path.basename(this.options.outputDir);
  return outputDirName === 'app' || this.options.outputDir.includes('/app')
    ? 'nextjs' : 'traditional';
}
return mode || 'traditional';
```
The argument type is `GeneratorOptions['mode']`, i.e. possibly `undefined`;
`mode || 'traditional'` maps `undefined` to `'traditional'`. -/
def IconGenerator.resolveMode (options : GeneratorOptions)
    (mode : Option GenerationMode) : ResolvedMode :=
  match mode with
  | some .auto =>
      if pathBasename options.outputDir = "app".toList
          || strIncludes options.outputDir "/app".toList
      then .nextjs else .traditional
  | some .traditional => .traditional
  | some .nextjs => .nextjs
  | none => .traditional

/-- The mode computed in the `IconGenerator` constructor
(src/generator.ts line 13): `this.resolveMode(options.mode || 'traditional')`.
JavaScript `||` sends `undefined` to `'traditional'` and keeps any of the
three mode strings (all truthy). -/
def IconGenerator.initMode (options : GeneratorOptions) : ResolvedMode :=
  IconGenerator.resolveMode options (some (options.mode.getD .traditional))

/-- Mode-from-path branch shared by the CLI (src/cli.ts lines 108-119) and
the MCP handler (src/mcp.ts lines 220-226): when an output directory is
explicitly supplied, the requested mode is replaced by a path-derived mode
only when it is `'auto'`:

```
if (mode === 'auto') {
  const outputBasename = path.basename(outputDir);
  mode = (outputBasename === 'app' || outputDir.includes('/app'))
    ? 'nextjs' : 'traditional';
}
```
-/
def modeFromExplicitOutput (mode : GenerationMode) (outputDir : List Char) :
    GenerationMode :=
  match mode with
  | .auto =>
      if pathBasename outputDir = "app".toList
          || strIncludes outputDir "/app".toList
      then .nextjs else .traditional
  | m => m

/-- End-to-end resolved mode of a run with an explicit output directory: the
CLI/MCP entry first applies `modeFromExplicitOutput`, then constructs
`IconGenerator` with that mode, whose constructor runs `resolveMode`. -/
def resolvedModeExplicitOutput (requested : GenerationMode)
    (sourcePath outputDir : List Char) (color : Option (List Char)) :
    ResolvedMode :=
  IconGenerator.initMode
    { sourcePath := sourcePath
      outputDir := outputDir
      color := color
      mode := some (modeFromExplicitOutput requested outputDir) }

/-! ## Icon catalog (src/types.ts) -/

inductive IconFormat where
  | png
  | ico
  | svg
deriving DecidableEq, Repr

inductive ConfigMode where
  | traditional
  | nextjs
  | both
deriving DecidableEq, Repr

/-- `IconConfig` from src/types.ts (`mode?` optional). -/
structure IconConfig where
  filename : String
  size : Nat
  format : IconFormat
  mode : Option ConfigMode
deriving DecidableEq, Repr

/-- `ICON_CONFIGS` from src/types.ts lines 202-213. -/
def ICON_CONFIGS : List IconConfig :=
  [ { filename := "favicon.ico", size := 32, format := .ico, mode := some .both }
  , { filename := "icon-192.png", size := 192, format := .png, mode := some .traditional }
  , { filename := "icon-512.png", size := 512, format := .png, mode := some .traditional }
  , { filename := "apple-touch-icon.png", size := 180, format := .png, mode := some .both }
  , { filename := "icon-maskable.png", size := 512, format := .png, mode := some .traditional }
  , { filename := "icon.png", size := 512, format := .png, mode := some .nextjs }
  , { filename := "apple-icon.png", size := 180, format := .png, mode := some .nextjs }
  ]

/-- The filter predicate in `IconGenerator.generate` (src/generator.ts
lines 33-36): `if (!config.mode || config.mode === 'both') return true;
return config.mode === this.mode;`. -/
def configApplies (mode : ResolvedMode) (config : IconConfig) : Bool :=
  match config.mode with
  | none => true
  | some .both => true
  | some .traditional => match mode with | .traditional => true | .nextjs => false
  | some .nextjs => match mode with | .nextjs => true | .traditional => false

/-! ## Maskable padding geometry (src/generator.ts lines 88-102)

`addMaskablePadding` resizes the content to
`paddedSize = Math.floor(size * 0.6)` and extends the canvas by
`padding = Math.floor((size - paddedSize) / 2)` on each of the four sides.
For the sizes in the catalog, `size * 0.6` is computed exactly enough in
IEEE doubles that `Math.floor(size * 0.6) = size * 6 / 10` in integer
(floor) arithmetic, so the embedding uses `Nat` division. -/

def maskablePaddedSize (size : Nat) : Nat := size * 6 / 10

def maskablePadding (size : Nat) : Nat := (size - maskablePaddedSize size) / 2

/-- Square pixel dimension of the image emitted by `addMaskablePadding`:
sharp resizes the content to `paddedSize × paddedSize` and `extend` adds
`padding` pixels on each side, so the canvas is
`paddedSize + 2 * padding` wide and high. -/
def maskableOutputDim (size : Nat) : Nat :=
  maskablePaddedSize size + 2 * maskablePadding size

/-- Square pixel dimension of the file emitted for a catalog entry by
`generateIcon` (src/generator.ts lines 64-86): the maskable icon goes
through `addMaskablePadding`, every other entry is resized to
`size × size` directly. -/
def emittedIconDim (config : IconConfig) : Nat :=
  if config.filename = "icon-maskable.png" then maskableOutputDim config.size
  else config.size

/-! ## Framework detection (src/utils.ts, src/types.ts) -/

/-- `Framework` from src/types.ts (`appDir?` optional). -/
structure Framework where
  name : String
  configFiles : List String
  publicDir : String
  appDir : Option String
deriving DecidableEq, Repr

/-- `FRAMEWORKS` from src/types.ts lines 215-226. -/
def FRAMEWORKS : List Framework :=
  [ { name := "Next.js"
      configFiles := ["next.config.js", "next.config.mjs", "next.config.ts"]
      publicDir := "public"
      appDir := some "app" }
  , { name := "Astro"
      configFiles := ["astro.config.mjs", "astro.config.js", "astro.config.ts"]
      publicDir := "public"
      appDir := none }
  , { name := "SvelteKit"
      configFiles := ["svelte.config.js"]
      publicDir := "static"
      appDir := none }
  , { name := "Remix"
      configFiles := ["remix.config.js"]
      publicDir := "public"
      appDir := none }
  , { name := "Vite"
      configFiles := ["vite.config.js", "vite.config.ts"]
      publicDir := "public"
      appDir := none }
  ]

/-- Inner loop of `FrameworkDetector.detect` (src/utils.ts lines 552-560):
a framework matches when one of its candidate config files is accessible
under the root (`fs.access` success is modelled by the filesystem predicate
returning `true`). -/
def frameworkHasConfig (fs : List Char → Bool) (cwd : List Char)
    (fw : Framework) : Bool :=
  fw.configFiles.any (fun cf => fs (pathJoin cwd cf.toList))

/-- Outer loop of `FrameworkDetector.detect` (src/utils.ts lines 550-563):
walk the catalog in order and return the first matching framework. -/
def detectFrom (fs : List Char → Bool) (cwd : List Char) :
    List Framework → Option Framework
  | [] => none
  | fw :: rest =>
      if frameworkHasConfig fs cwd fw then some fw
      else detectFrom fs cwd rest

/-- `FrameworkDetector.detect`. -/
def FrameworkDetector.detect (fs : List Char → Bool) (cwd : List Char) :
    Option Framework :=
  detectFrom fs cwd FRAMEWORKS

/-- `FrameworkDetector.getPublicDir` (src/utils.ts lines 565-572). -/
def FrameworkDetector.getPublicDir (fs : List Char → Bool) (cwd : List Char) :
    List Char :=
  match FrameworkDetector.detect fs cwd with
  | some fw => pathJoin cwd fw.publicDir.toList
  | none => pathJoin cwd "public".toList

/-- `FrameworkDetector.getAppDir` (src/utils.ts lines 574-594): only
frameworks declaring an `appDir` can resolve one; probe `cwd/appDir` first,
then `cwd/src/appDir`. -/
def FrameworkDetector.getAppDir (fs : List Char → Bool) (cwd : List Char) :
    Option (List Char) :=
  match FrameworkDetector.detect fs cwd with
  | some fw =>
      match fw.appDir with
      | some ad =>
          if fs (pathJoin cwd ad.toList) then some (pathJoin cwd ad.toList)
          else if fs (pathJoin (pathJoin cwd "src".toList) ad.toList) then
            some (pathJoin (pathJoin cwd "src".toList) ad.toList)
          else none
      | none => none
  | none => none

/-- `FrameworkDetector.hasAppRouter` (src/utils.ts lines 596-599). -/
def FrameworkDetector.hasAppRouter (fs : List Char → Bool) (cwd : List Char) :
    Bool :=
  (FrameworkDetector.getAppDir fs cwd).isSome

/-- The `possibleNames` probe list of `findAppIcon` (src/utils.ts line 603). -/
def possibleAppIconNames : List String := ["app-icon.svg", "app-icon.png"]

/-- The probing loop of `findAppIcon` (src/utils.ts lines 605-613). -/
def findAppIconFrom (fs : List Char → Bool) (cwd : List Char) :
    List String → Option (List Char)
  | [] => none
  | nm :: rest =>
      if fs (pathJoin cwd nm.toList) then some (pathJoin cwd nm.toList)
      else findAppIconFrom fs cwd rest

/-- `findAppIcon` (src/utils.ts lines 602-616). -/
def findAppIcon (fs : List Char → Bool) (cwd : List Char) : Option (List Char) :=
  findAppIconFrom fs cwd possibleAppIconNames

/-! ## Source validation (src/utils.ts lines 618-631) -/

inductive ValidationError where
  | sourceNotFound (path : List Char)
  | invalidFormat
deriving DecidableEq, Repr

/-- `validExtensions` from src/utils.ts line 626. -/
def validExtensions : List (List Char) :=
  [".svg".toList, ".png".toList, ".jpg".toList, ".jpeg".toList]

/-- `validateSourceFile`: throws `Source file not found` when `fs.access`
rejects (modelled by `accessible = false`), then throws
`Invalid file format` when the lower-cased extension is not in the
allow-list, else returns nothing. -/
def validateSourceFile (accessible : Bool) (sourcePath : List Char) :
    Except ValidationError Unit :=
  if accessible = false then
    Except.error (ValidationError.sourceNotFound sourcePath)
  else
    let ext := (pathExtname sourcePath).map Char.toLower
    if ¬ ext ∈ validExtensions then Except.error ValidationError.invalidFormat
    else Except.ok ()

/-! ## Manifest and generated-file inventory (src/generator.ts) -/

/-- One entry of the `icons` array written by `generateManifest`
(src/generator.ts lines 124-148). -/
structure ManifestIcon where
  src : String
  sizes : String
  type : String
  purpose : Option String
deriving DecidableEq, Repr

/-- The `icons` array of the `site.webmanifest` object literal
(src/generator.ts lines 126-143). -/
def siteWebmanifestIcons : List ManifestIcon :=
  [ { src := "/icon-192.png", sizes := "192x192", type := "image/png",
      purpose := none }
  , { src := "/icon-512.png", sizes := "512x512", type := "image/png",
      purpose := none }
  , { src := "/icon-maskable.png", sizes := "512x512", type := "image/png",
      purpose := some "maskable" }
  ]

/-- `iconsToGenerate` from `IconGenerator.generate` (src/generator.ts
lines 33-36). -/
def iconsToGenerate (mode : ResolvedMode) : List IconConfig :=
  ICON_CONFIGS.filter (configApplies mode)

/-- Names of the files written by a successful `IconGenerator.generate` run
(src/generator.ts lines 25-62): the filtered catalog, then for an SVG source
the `icon.svg` copy and (traditional mode only) `safari-pinned-tab.svg`,
then (traditional mode only) `site.webmanifest`, and always the integration
guide. -/
def generatedFiles (mode : ResolvedMode) (isSourceSVG : Bool) : List String :=
  (iconsToGenerate mode).map IconConfig.filename
    ++ (if isSourceSVG then
          ["icon.svg"]
            ++ (if mode = ResolvedMode.traditional then
                  ["safari-pinned-tab.svg"] else [])
        else [])
    ++ (if mode = ResolvedMode.traditional then ["site.webmanifest"] else [])
    ++ ["icon-integration-guide.txt"]

/-! ## HTML integration (src/mcp.ts lines 422-504)

The tool reads the target file's text, aborts when one of two signature
substrings is already present, else splices a block after the first
case-insensitive `<head ...>` tag.  The splice delimiters in the source are
the two-character sequences backslash-n (written `'\\n  '` and `'\\n'` in
the TypeScript), not real newlines. -/

/-- Fixed part of the `iconTags` template literal (src/mcp.ts lines
447-458) before the interpolated color; contains real newlines. -/
def iconTagsPre : List Char :=
  ("<!-- Favicon (modern + fallback) -->\n<link rel=\"icon\" href=\"/icon.svg\" type=\"image/svg+xml\">\n<link rel=\"icon\" href=\"/favicon.ico\" sizes=\"any\">\n\n<!-- Apple Touch Icon -->\n<link rel=\"apple-touch-icon\" href=\"/apple-touch-icon.png\">\n\n<!-- Web App Manifest (PWA) -->\n<link rel=\"manifest\" href=\"/site.webmanifest\">\n\n<!-- Safari Pinned Tab -->\n<link rel=\"mask-icon\" href=\"/safari-pinned-tab.svg\" color=\"").toList

/-- Tail of the `iconTags` template literal after the color. -/
def iconTagsSuf : List Char := "\">".toList

/-- The `iconTags` template literal with the color interpolated. -/
def iconTags (color : List Char) : List Char :=
  iconTagsPre ++ color ++ iconTagsSuf

/-- The two-character literal string backslash-n (`'\\n'` in the source). -/
def bsn : List Char := ['\\', 'n']

/-- The four-character literal backslash-n plus two spaces (`'\\n  '`). -/
def bsnIndent : List Char := ['\\', 'n', ' ', ' ']

/-- JavaScript `String.prototype.split` with a non-empty string separator:
scan left to right, cutting at each non-overlapping occurrence.  (The
`sep ≠ []` conjunct guards the empty-separator case, which never occurs in
this code base; it also provides the termination measure.) -/
def splitOnSub (sep : List Char) (s : List Char) : List (List Char) :=
  match s with
  | [] => [[]]
  | c :: rest =>
      if h : sep ≠ [] ∧ sep.isPrefixOf (c :: rest) then
        [] :: splitOnSub sep ((c :: rest).drop sep.length)
      else
        match splitOnSub sep rest with
        | [] => [[c]]
        | piece :: pieces => (c :: piece) :: pieces
termination_by s.length
decreasing_by
  · have hlen : 0 < sep.length := List.length_pos.mpr h.1
    simp only [List.length_drop, List.length_cons]
    omega
  · simp only [List.length_cons]
    omega

/-- The text spliced immediately after the `<head ...>` tag (src/mcp.ts
line 480): `'\\n  ' + iconTags.split('\\n').join('\\n  ') + '\\n'`, where
both quoted delimiters are literal backslash-n sequences, and JavaScript
`join` is list intercalation. -/
def headInsertion (color : List Char) : List Char :=
  bsnIndent ++ List.intercalate bsnIndent (splitOnSub bsn (iconTags color)) ++ bsn

/-- Match of the case-insensitive regex `<head[^>]*>` anchored at the start
of `s`: requires `<head` (ASCII case-insensitively) and then a `>` at or
after position 5; the greedy `[^>]*` runs to the first such `>`, and the
returned value is the match length. -/
def headAt (s : List Char) : Option Nat :=
  if (s.take 5).map Char.toLower = "<head".toList then
    if '>' ∈ s.drop 5 then
      some (5 + ((s.drop 5).takeWhile (fun c => c ≠ '>')).length + 1)
    else none
  else none

/-- Leftmost match of `/(<head[^>]*>)/i` (src/mcp.ts line 474): start index
and match length of the first position where `headAt` succeeds. -/
def findHead : List Char → Option (Nat × Nat)
  | [] => none
  | c :: rest =>
      match headAt (c :: rest) with
      | some len => some (0, len)
      | none => (findHead rest).map (fun p => (p.1 + 1, p.2))

/-- Outcome of `handleIntegrateIconsHTML` on an existing HTML file. -/
inductive IntegrationResult where
  | alreadyPresent
  | written (newContent : List Char)
  | noHead
deriving DecidableEq, Repr

/-- Core of `handleIntegrateIconsHTML` (src/mcp.ts lines 444-503) acting on
the file's text: abort as already-present when either signature substring
occurs, else splice `headInsertion` right after the first `<head ...>` tag
and write the result, else report the missing head tag without writing. -/
def handleIntegrateIconsHTML (color htmlContent : List Char) :
    IntegrationResult :=
  if (strIncludes htmlContent ("apple-touch-icon".toList)
      || strIncludes htmlContent ("site.webmanifest".toList)) then
    IntegrationResult.alreadyPresent
  else
    match findHead htmlContent with
    | some hl =>
        IntegrationResult.written (htmlContent.take (hl.1 + hl.2)
          ++ headInsertion color ++ htmlContent.drop (hl.1 + hl.2))
    | none => IntegrationResult.noHead

/-- Concrete HTML fixture with a `<head>` tag and no icon tags. -/
def htmlFixture : List Char :=
  ("<html><head><title>T</title></head></html>").toList

/-! ## Safari pinned tab monochrome conversion (src/generator.ts lines
109-122)

`generateSafariPinnedTab` rewrites the SVG text with two global regex
replacements: `/fill="[^"]*"/g` with `fill="COLOR"` and
`/stroke="[^"]*"/g` with `stroke="COLOR"`. -/

/-- The fixed lead-in of the fill pattern: `fill="` including the opening
quote. -/
def fillKey : List Char := ("fill=\"").toList

/-- The fixed lead-in of the stroke pattern: `stroke="` including the
opening quote. -/
def strokeKey : List Char := ("stroke=\"").toList

/-- Model of `[^"]*"` after the key: greedily take everything before the
first double quote; the remainder past that quote is returned.  `none` when
no closing quote exists, in which case the regex has no match at this start
position. -/
def splitAtQuote (l : List Char) : Option (List Char × List Char) :=
  if ('"' : Char) ∈ l then
    some (l.takeWhile (fun c => c ≠ '"'),
      (l.dropWhile (fun c => c ≠ '"')).tail)
  else none

/-- Model of JavaScript global regex replace for the pattern
`KEY[^"]*"` with replacement `KEY ++ COLOR ++ "`: scan left to right; at a
position where the key matches and a closing quote follows, emit the
replacement and continue after the match; otherwise copy one character and
continue.  The replacement string is modelled literally: JavaScript
`String.replace` expands `$`-sequences (`$&`, `$'`, `$$`, ...) inside the
replacement, so this model is faithful exactly for interpolated colors that
contain no `$` character — the theorems below assume that. -/
def replaceAttr (key color : List Char) (s : List Char) : List Char :=
  match s with
  | [] => []
  | c :: rest =>
      if key.isPrefixOf (c :: rest) then
        match hsp : splitAtQuote ((c :: rest).drop key.length) with
        | some va => key ++ color ++ '"' :: replaceAttr key color va.2
        | none => c :: replaceAttr key color rest
      else c :: replaceAttr key color rest
termination_by s.length
decreasing_by
  · simp only [splitAtQuote] at hsp
    by_cases hq : ('"' : Char) ∈ (c :: rest).drop key.length
    · rw [if_pos hq] at hsp
      injection hsp with hpair
      have h2 : va.2 = (((c :: rest).drop key.length).dropWhile
          (fun x => x ≠ '"')).tail := by
        rw [← hpair]
      have hnn : ((c :: rest).drop key.length).dropWhile
          (fun x => x ≠ '"') ≠ [] := by
        intro hnil
        have hall := List.dropWhile_eq_nil_iff.mp hnil '"' hq
        exact absurd hall (by decide)
      have hd1 : (((c :: rest).drop key.length).dropWhile
          (fun x => x ≠ '"')).length ≤ ((c :: rest).drop key.length).length :=
        (List.dropWhile_sublist _).length_le
      have hd0 : 0 < (((c :: rest).drop key.length).dropWhile
          (fun x => x ≠ '"')).length := List.length_pos.mpr hnn
      rw [h2, List.length_tail]
      have hd2 := List.length_drop key.length (c :: rest)
      simp only [List.length_cons] at hd2 ⊢
      omega
    · rw [if_neg hq] at hsp
      exact absurd hsp (by simp)
  · simp only [List.length_cons]
    omega
  · simp only [List.length_cons]
    omega

/-- `generateSafariPinnedTab` acting on the SVG text (src/generator.ts
lines 109-122): default color `#000000`, then the two chained global
replacements, fill first, stroke second. -/
def generateSafariPinnedTab (sourceSVG : List Char)
    (color : Option (List Char)) : List Char :=
  let monochromeColor := color.getD ("#000000".toList)
  replaceAttr strokeKey monochromeColor
    (replaceAttr fillKey monochromeColor sourceSVG)

/-- Keys of the attribute patterns have no self-overlap: no proper nonempty
suffix of the key is a prefix of the key.  This rules out pattern
occurrences spanning the boundary of a preceding text block and a genuine
key occurrence. -/
def NoSelfOverlap (key : List Char) : Prop :=
  ∀ j, j < key.length → 0 < j → key.drop j ≠ key.take (key.length - j)

/-- A source text decomposed for one replacement pass: a list of
(clean segment, attribute value) pairs followed by a trailing clean
segment, rendered as `T0 ++ KEY ++ v1 ++ '"' ++ T1 ++ KEY ++ v2 ++ '"' ++
... ++ tail`.  This names each occurrence of the pattern `KEY[^"]*"` that
the pass is expected to rewrite. -/
def renderAttrs (key : List Char) :
    List (List Char × List Char) → List Char → List Char
  | [], tail => tail
  | tv :: rest, tail =>
      tv.1 ++ (key ++ (tv.2 ++ '"' :: renderAttrs key rest tail))

/-- Counterexample source: the `alt` attribute value ends in `fill=`, so the
text `fill="` occurs spanning the alt value and its closing quote, ahead of
the genuine `fill="#112233"` and `stroke="#445566"` attributes. -/
def pinnedTabTrickSrc : List Char :=
  "<a alt=\"fill=\" fill=\"#112233\" stroke=\"#445566\"/>".toList

/-- What the code emits for `pinnedTabTrickSrc` with accent `#5bbad5`: the
fill pattern matches at the spurious occurrence, consuming from the alt
value through the genuine fill attribute's opening quote, so the original
`#112233` survives in the output. -/
def pinnedTabTrickOut : List Char :=
  "<a alt=\"fill=\"#5bbad5\"#112233\" stroke=\"#5bbad5\"/>".toList

/-- Concrete detector scenario for the Astro claim: a project root
containing exactly `astro.config.mjs` and an `app` directory. -/
def astroCwd : List Char := "/proj".toList

/-- Filesystem of the Astro scenario: only `/proj/astro.config.mjs` and the
directory `/proj/app` exist. -/
def astroFs (p : List Char) : Bool :=
  decide (p = "/proj/astro.config.mjs".toList) || decide (p = "/proj/app".toList)

/-! ## Theorems for claims C1, C2, C8 -/

/-- C1 counterexample: requesting explicit mode `traditional` with an output
directory ending in `/app` resolves to `traditional`, not `nextjs` — both in
`IconGenerator.resolveMode` alone and through the full CLI/MCP pipeline. -/
theorem resolveMode_traditional_app_counterexample :
    IconGenerator.resolveMode
        { sourcePath := "logo.svg".toList
          outputDir := "/proj/app".toList
          color := none
          mode := some .traditional }
        (some .traditional) = .traditional
    ∧ resolvedModeExplicitOutput .traditional "logo.svg".toList
        "/proj/app".toList none = .traditional
    ∧ ResolvedMode.traditional ≠ ResolvedMode.nextjs := by
  refine ⟨rfl, rfl, ?_⟩
  intro h
  exact ResolvedMode.noConfusion h

/-- C1 (amended): output-directory inspection happens only for requested mode
`auto`.  An explicit `traditional` or `nextjs` request is used as-is for
every output directory, and a requested `auto` with an explicit output
directory resolves to `nextjs` exactly when the directory basename is `app`
or the path contains `/app`. -/
theorem resolveMode_explicit_is_authoritative
    (requested : GenerationMode) (src outDir : List Char)
    (color : Option (List Char)) :
    (requested = .traditional →
       resolvedModeExplicitOutput requested src outDir color = .traditional)
    ∧ (requested = .nextjs →
       resolvedModeExplicitOutput requested src outDir color = .nextjs)
    ∧ (requested = .auto →
       (resolvedModeExplicitOutput requested src outDir color = .nextjs ↔
        (pathBasename outDir = "app".toList
          ∨ ("/app".toList).IsInfix outDir))) := by
  refine ⟨?_, ?_, ?_⟩
  · rintro rfl; rfl
  · rintro rfl; rfl
  · rintro rfl
    simp only [resolvedModeExplicitOutput, modeFromExplicitOutput,
      IconGenerator.initMode, IconGenerator.resolveMode, strIncludes]
    by_cases hc : (pathBasename outDir = "app".toList
        ∨ ("/app".toList) <:+: outDir)
    · simp only [String.toList] at hc
      simp [hc]
    · have h1 : pathBasename outDir ≠ "app".toList := fun h => hc (Or.inl h)
      have h2 : ¬ ("/app".toList) <:+: outDir := fun h => hc (Or.inr h)
      simp only [String.toList] at h1 h2
      simp [h1, h2]

/-- Witness for `resolveMode_explicit_is_authoritative` at concrete inputs:
explicit `traditional` with an `/app`-suffixed output directory stays
`traditional`, and `auto` with the same directory resolves to `nextjs`. -/
theorem resolveMode_explicit_is_authoritative_witness :
    resolvedModeExplicitOutput .traditional "logo.svg".toList
        "/proj/app".toList none = .traditional
    ∧ resolvedModeExplicitOutput .auto "logo.svg".toList
        "/proj/app".toList none = .nextjs := by
  constructor
  · exact (resolveMode_explicit_is_authoritative .traditional
      "logo.svg".toList "/proj/app".toList none).1 rfl
  · exact (resolveMode_explicit_is_authoritative .auto
      "logo.svg".toList "/proj/app".toList none).2.2 rfl |>.mpr
      (Or.inl (by decide))

/-- C2: the maskable pipeline at the catalog-declared size 512 emits a
canvas of `floor(512*0.6) + 2*floor((512-307)/2) = 307 + 204 = 511` pixels,
one short of the declared 512: the catalog entry for `icon-maskable.png`
declares size 512 but the emitted square dimension is 511, not 512. -/
theorem maskable_512_emits_511 :
    maskablePaddedSize 512 = 307
    ∧ maskablePadding 512 = 102
    ∧ maskableOutputDim 512 = 511
    ∧ (ICON_CONFIGS.filter (fun c => c.filename = "icon-maskable.png")).map
        emittedIconDim = [511]
    ∧ (511 : Nat) ≠ 512 := by
  refine ⟨rfl, rfl, rfl, by decide, by decide⟩

/-- C8: constructing an `IconGenerator` with the `mode` option omitted
(`undefined`) resolves to `traditional` for every output directory — even
one whose basename is `app` or whose path contains `/app` — and agrees with
an explicit `traditional` request, so omission never triggers
output-directory inspection. -/
theorem initMode_omitted_is_traditional
    (src outDir : List Char) (color : Option (List Char)) :
    IconGenerator.initMode
      { sourcePath := src, outputDir := outDir, color := color, mode := none }
      = .traditional
    ∧ IconGenerator.initMode
      { sourcePath := src, outputDir := outDir, color := color,
        mode := some .traditional }
      = IconGenerator.initMode
      { sourcePath := src, outputDir := outDir, color := color, mode := none } :=
  ⟨rfl, rfl⟩

/-- C10: `findAppIcon` probes `app-icon.svg` before `app-icon.png`: whenever
the svg exists it is returned (even when the png also exists), the png is
returned exactly when the svg is absent and the png present, and `null` is
returned iff neither exists. -/
theorem findAppIcon_svg_before_png (fs : List Char → Bool) (cwd : List Char) :
    (fs (pathJoin cwd "app-icon.svg".toList) = true →
       findAppIcon fs cwd = some (pathJoin cwd "app-icon.svg".toList))
    ∧ (fs (pathJoin cwd "app-icon.svg".toList) = false →
       fs (pathJoin cwd "app-icon.png".toList) = true →
       findAppIcon fs cwd = some (pathJoin cwd "app-icon.png".toList))
    ∧ (findAppIcon fs cwd = none ↔
       fs (pathJoin cwd "app-icon.svg".toList) = false
       ∧ fs (pathJoin cwd "app-icon.png".toList) = false) := by
  have e : findAppIcon fs cwd =
      if fs (pathJoin cwd "app-icon.svg".toList) = true
      then some (pathJoin cwd "app-icon.svg".toList)
      else if fs (pathJoin cwd "app-icon.png".toList) = true
      then some (pathJoin cwd "app-icon.png".toList)
      else none := rfl
  refine ⟨fun h1 => ?_, fun h1 h2 => ?_, ?_⟩
  · rw [e, if_pos h1]
  · rw [e, if_neg (by rw [h1]; exact Bool.false_ne_true), if_pos h2]
  · rw [e]
    cases h1 : fs (pathJoin cwd "app-icon.svg".toList)
    · cases h2 : fs (pathJoin cwd "app-icon.png".toList)
      · rw [if_neg Bool.false_ne_true, if_neg Bool.false_ne_true]
        exact iff_of_true rfl ⟨rfl, rfl⟩
      · rw [if_neg Bool.false_ne_true, if_pos rfl]
        exact iff_of_false (fun hc => Option.noConfusion hc)
          (fun hc => Bool.noConfusion hc.2)
    · rw [if_pos rfl]
      exact iff_of_false (fun hc => Option.noConfusion hc)
        (fun hc => Bool.noConfusion hc.1)

/-- Witness for `findAppIcon_svg_before_png`: in a directory holding both
files the svg wins; with only the png it is returned; with neither the
result is `none`. -/
theorem findAppIcon_svg_before_png_witness :
    findAppIcon (fun p => decide (p = "/r/app-icon.svg".toList)
        || decide (p = "/r/app-icon.png".toList)) "/r".toList
      = some ("/r/app-icon.svg".toList)
    ∧ findAppIcon (fun p => decide (p = "/r/app-icon.png".toList)) "/r".toList
      = some ("/r/app-icon.png".toList)
    ∧ findAppIcon (fun _ => false) "/r".toList = none := by
  refine ⟨?_, ?_, ?_⟩
  · exact (findAppIcon_svg_before_png _ "/r".toList).1 (by decide)
  · exact (findAppIcon_svg_before_png _ "/r".toList).2.1 (by decide) (by decide)
  · exact (findAppIcon_svg_before_png (fun _ => false) "/r".toList).2.2.mpr
      ⟨rfl, rfl⟩

/-- C4: `validateSourceFile` fails with the not-found error exactly when the
path is inaccessible; on an accessible path it succeeds iff the lower-cased
extension is one of `.svg`, `.png`, `.jpg`, `.jpeg`, and otherwise fails
with the invalid-format error. -/
theorem validateSourceFile_spec (accessible : Bool) (sourcePath : List Char) :
    (accessible = false →
       validateSourceFile accessible sourcePath
         = Except.error (ValidationError.sourceNotFound sourcePath))
    ∧ (accessible = true →
       (validateSourceFile accessible sourcePath = Except.ok () ↔
          ((pathExtname sourcePath).map Char.toLower) ∈ validExtensions)
       ∧ (validateSourceFile accessible sourcePath
            = Except.error ValidationError.invalidFormat ↔
          ¬ ((pathExtname sourcePath).map Char.toLower) ∈ validExtensions)) := by
  refine ⟨fun h => by simp [validateSourceFile, h], fun h => ?_⟩
  subst h
  by_cases hext : ((pathExtname sourcePath).map Char.toLower) ∈ validExtensions
      <;> simp [validateSourceFile, hext]

/-- Witness for `validateSourceFile_spec`: an accessible `logo.SVG` passes
(case-insensitive extension), an inaccessible path gives the not-found
error, and an accessible `notes.txt` gives the invalid-format error. -/
theorem validateSourceFile_spec_witness :
    validateSourceFile true "logo.SVG".toList = Except.ok ()
    ∧ validateSourceFile false "icon.png".toList
        = Except.error (ValidationError.sourceNotFound "icon.png".toList)
    ∧ validateSourceFile true "notes.txt".toList
        = Except.error ValidationError.invalidFormat := by
  refine ⟨?_, ?_, ?_⟩
  · exact ((validateSourceFile_spec true "logo.SVG".toList).2 rfl).1.mpr
      (by decide)
  · exact (validateSourceFile_spec false "icon.png".toList).1 rfl
  · exact ((validateSourceFile_spec true "notes.txt".toList).2 rfl).2.mpr
      (by decide)

/-- Helper: `detectFrom` is first-match search over the framework list. -/
theorem detectFrom_eq_find (fs : List Char → Bool) (cwd : List Char)
    (l : List Framework) :
    detectFrom fs cwd l = l.find? (frameworkHasConfig fs cwd) := by
  induction l with
  | nil => rfl
  | cons fw rest ih =>
      show (if frameworkHasConfig fs cwd fw = true
            then some fw else detectFrom fs cwd rest) = _
      cases h : frameworkHasConfig fs cwd fw
      · rw [List.find?_cons_of_neg _ (by rw [h]; exact Bool.false_ne_true)]
        rw [if_neg Bool.false_ne_true]
        exact ih
      · rw [List.find?_cons_of_pos _ h]
        rw [if_pos rfl]

/-- Helper: `detectFrom` reports no framework exactly when no candidate
config file of any listed framework is accessible. -/
theorem detectFrom_eq_none_iff (fs : List Char → Bool) (cwd : List Char)
    (l : List Framework) :
    detectFrom fs cwd l = none ↔
      ∀ fw ∈ l, ∀ cf ∈ fw.configFiles, fs (pathJoin cwd cf.toList) = false := by
  induction l with
  | nil =>
      constructor
      · intro _ fw hfw
        exact absurd hfw (List.not_mem_nil fw)
      · intro _
        rfl
  | cons fw rest ih =>
      have hunf : detectFrom fs cwd (fw :: rest)
          = (if frameworkHasConfig fs cwd fw = true
             then some fw else detectFrom fs cwd rest) := rfl
      cases h : frameworkHasConfig fs cwd fw
      · rw [hunf, h, if_neg Bool.false_ne_true, ih]
        constructor
        · intro hall fw2 hfw2 cf hcf
          rcases List.mem_cons.mp hfw2 with hq | hq
          · subst hq
            have hany : fw2.configFiles.any
                (fun cf => fs (pathJoin cwd cf.toList)) = false := h
            exact Bool.eq_false_iff.mpr (List.any_eq_false.mp hany cf hcf)
          · exact hall fw2 hq cf hcf
        · intro hall fw2 hfw2 cf hcf
          exact hall fw2 (List.mem_cons_of_mem fw hfw2) cf hcf
      · rw [hunf, h, if_pos rfl]
        constructor
        · intro hc
          exact Option.noConfusion hc
        · intro hall
          have hany : fw.configFiles.any
              (fun cf => fs (pathJoin cwd cf.toList)) = true := h
          rcases List.any_eq_true.mp hany with ⟨cf, hcf, hfs⟩
          have hfalse := hall fw (List.mem_cons_self fw rest) cf hcf
          rw [hfalse] at hfs
          exact absurd hfs Bool.false_ne_true

/-- C5: framework detection returns the first catalog framework with an
existing candidate config file and `none` exactly when no candidate exists;
in the concrete scenario of a root containing only `astro.config.mjs` (plus
an `app` directory), Astro is detected, the static-asset directory is
`public`, and app-router availability is false despite the existing `app`
directory, because Astro declares no app-router directory. -/
theorem frameworkDetector_first_match_astro :
    (∀ (fs : List Char → Bool) (cwd : List Char),
       FrameworkDetector.detect fs cwd
         = FRAMEWORKS.find?
             (fun fw => fw.configFiles.any (fun cf => fs (pathJoin cwd cf.toList)))
       ∧ (FrameworkDetector.detect fs cwd = none ↔
           ∀ fw ∈ FRAMEWORKS, ∀ cf ∈ fw.configFiles,
             fs (pathJoin cwd cf.toList) = false))
    ∧ (FrameworkDetector.detect astroFs astroCwd).map Framework.name
        = some "Astro"
    ∧ (FrameworkDetector.detect astroFs astroCwd).map Framework.publicDir
        = some "public"
    ∧ FrameworkDetector.getPublicDir astroFs astroCwd = "/proj/public".toList
    ∧ astroFs (pathJoin astroCwd "app".toList) = true
    ∧ FrameworkDetector.hasAppRouter astroFs astroCwd = false := by
  exact ⟨fun fs cwd => ⟨detectFrom_eq_find fs cwd FRAMEWORKS,
      detectFrom_eq_none_iff fs cwd FRAMEWORKS⟩,
    by decide, by decide, by decide, by decide, by decide⟩

/-- C3: `site.webmanifest` is among the files written by `generate` exactly
when the resolved mode is traditional (so never in nextjs mode), and the
manifest's icons array has exactly three entries with sizes `192x192`,
`512x512`, `512x512` in that order, only the last carrying the purpose
marker `maskable`. -/
theorem manifest_traditional_only (isSourceSVG : Bool) :
    (∀ mode : ResolvedMode,
       "site.webmanifest" ∈ generatedFiles mode isSourceSVG ↔
         mode = ResolvedMode.traditional)
    ∧ siteWebmanifestIcons.length = 3
    ∧ siteWebmanifestIcons.map ManifestIcon.sizes
        = ["192x192", "512x512", "512x512"]
    ∧ siteWebmanifestIcons.map ManifestIcon.purpose
        = [none, none, some "maskable"] := by
  refine ⟨fun mode => ?_, rfl, rfl, rfl⟩
  cases mode <;> cases isSourceSVG <;> decide

/-- Helper: splitting on a separator that does not occur returns the whole
string as the single piece. -/
theorem splitOnSub_no_sep_occurrence (sep : List Char) (s : List Char)
    (h : ¬ sep <:+: s) : splitOnSub sep s = [s] := by
  induction s with
  | nil => simp [splitOnSub]
  | cons c rest ih =>
      have hpre : ¬ (sep ≠ [] ∧ sep.isPrefixOf (c :: rest)) := by
        rintro ⟨-, hp⟩
        exact h (List.IsPrefix.isInfix (List.isPrefixOf_iff_prefix.mp hp))
      have hrest : ¬ sep <:+: rest := fun hinf => h (List.infix_cons hinf)
      rw [splitOnSub, dif_neg hpre, ih hrest]

/-- Helper: intercalating a one-element list is the element itself. -/
theorem intercalate_single (sep x : List Char) :
    List.intercalate sep [x] = x := by
  simp [List.intercalate]

/-- Helper: when the color contains no backslash, the literal backslash-n
delimiter does not occur in `iconTags`, so the split/join indentation step
is the identity and the spliced text is exactly
backslash-n-space-space, the block, backslash-n. -/
theorem headInsertion_eq (color : List Char) (hc : ('\\' : Char) ∉ color) :
    headInsertion color = bsnIndent ++ iconTags color ++ bsn := by
  have hnb : ('\\' : Char) ∉ iconTags color := by
    intro hmem
    rcases List.mem_append.mp hmem with hmem2 | hmem2
    · rcases List.mem_append.mp hmem2 with hmem3 | hmem3
      · exact absurd hmem3 (by decide)
      · exact hc hmem3
    · exact absurd hmem2 (by decide)
  have hni : ¬ bsn <:+: iconTags color := fun hinf =>
    hnb (hinf.subset (by decide))
  unfold headInsertion
  rw [splitOnSub_no_sep_occurrence bsn _ hni, intercalate_single]

/-- Helper: the first signature substring occurs in `iconTags` for every
interpolated color. -/
theorem appleTouchIcon_infix_iconTags (color : List Char) :
    ("apple-touch-icon".toList) <:+: iconTags color := by
  have h1 : ("apple-touch-icon".toList) <:+: iconTagsPre := by decide
  have h2 : iconTagsPre <+: iconTags color := by
    unfold iconTags
    rw [List.append_assoc]
    exact List.prefix_append _ _
  exact h1.trans h2.isInfix

/-- C6: the HTML integrator is idempotent.  A file already containing either
signature substring is reported as already-present with no write; a file
without the signatures but with a `<head ...>` tag is rewritten on the first
call; and whatever the first call writes differs from the input and is
reported as already-present by a second call. -/
theorem integrateIconsHTML_idempotent (color html : List Char) :
    ((("apple-touch-icon".toList) <:+: html ∨ ("site.webmanifest".toList) <:+: html) →
       handleIntegrateIconsHTML color html = IntegrationResult.alreadyPresent)
    ∧ (strIncludes html ("apple-touch-icon".toList) = false →
       strIncludes html ("site.webmanifest".toList) = false →
       ∀ i len, findHead html = some (i, len) →
       ∃ out, handleIntegrateIconsHTML color html = IntegrationResult.written out)
    ∧ (('\\' : Char) ∉ color →
       ∀ out, handleIntegrateIconsHTML color html = IntegrationResult.written out →
         out ≠ html
         ∧ handleIntegrateIconsHTML color out = IntegrationResult.alreadyPresent) := by
  refine ⟨?_, ?_, ?_⟩
  · intro h
    have hb : (strIncludes html ("apple-touch-icon".toList)
        || strIncludes html ("site.webmanifest".toList)) = true := by
      rcases h with h | h
      · have h1b : strIncludes html ("apple-touch-icon".toList) = true :=
          decide_eq_true h
        rw [h1b, Bool.true_or]
      · have h1b : strIncludes html ("site.webmanifest".toList) = true :=
          decide_eq_true h
        rw [h1b, Bool.or_true]
    simp only [handleIntegrateIconsHTML]
    rw [if_pos hb]
  · intro hs1 hs2 i len hfind
    refine ⟨html.take (i + len) ++ headInsertion color ++ html.drop (i + len), ?_⟩
    simp only [handleIntegrateIconsHTML, hfind]
    rw [if_neg (by rw [hs1, hs2]; exact Bool.false_ne_true)]
  · intro hc out hout
    by_cases hb : (strIncludes html ("apple-touch-icon".toList)
        || strIncludes html ("site.webmanifest".toList)) = true
    · exfalso
      have habort : handleIntegrateIconsHTML color html
          = IntegrationResult.alreadyPresent := by
        simp only [handleIntegrateIconsHTML]
        rw [if_pos hb]
      rw [habort] at hout
      exact IntegrationResult.noConfusion hout
    · cases hfind : findHead html with
      | none =>
          exfalso
          have hnone : handleIntegrateIconsHTML color html
              = IntegrationResult.noHead := by
            simp only [handleIntegrateIconsHTML, hfind]
            rw [if_neg hb]
          rw [hnone] at hout
          exact IntegrationResult.noConfusion hout
      | some hl =>
          have hmain : handleIntegrateIconsHTML color html
              = IntegrationResult.written (html.take (hl.1 + hl.2)
                  ++ headInsertion color ++ html.drop (hl.1 + hl.2)) := by
            simp only [handleIntegrateIconsHTML, hfind]
            rw [if_neg hb]
          rw [hmain] at hout
          injection hout with hout2
          subst hout2
          constructor
          · intro hcontra
            have hlen : (html.take (hl.1 + hl.2) ++ headInsertion color
                ++ html.drop (hl.1 + hl.2)).length
                = html.length + (headInsertion color).length := by
              have hsplit := congrArg List.length
                (List.take_append_drop (hl.1 + hl.2) html)
              rw [List.length_append] at hsplit
              rw [List.length_append, List.length_append]
              omega
            have hpos : 0 < (headInsertion color).length := by
              rw [headInsertion_eq color hc, List.length_append,
                List.length_append]
              have : bsnIndent.length = 4 := by decide
              omega
            have hcl := congrArg List.length hcontra
            rw [hlen] at hcl
            omega
          · have hsig : ("apple-touch-icon".toList) <:+:
                (html.take (hl.1 + hl.2) ++ headInsertion color
                  ++ html.drop (hl.1 + hl.2)) := by
              have h4 : iconTags color <:+: headInsertion color := by
                rw [headInsertion_eq color hc]
                exact List.infix_append _ _ _
              have h5 : headInsertion color <:+:
                  (html.take (hl.1 + hl.2) ++ headInsertion color
                    ++ html.drop (hl.1 + hl.2)) :=
                List.infix_append _ _ _
              exact ((appleTouchIcon_infix_iconTags color).trans h4).trans h5
            have hb2 : (strIncludes (html.take (hl.1 + hl.2)
                ++ headInsertion color ++ html.drop (hl.1 + hl.2))
                  ("apple-touch-icon".toList)
                || strIncludes (html.take (hl.1 + hl.2)
                ++ headInsertion color ++ html.drop (hl.1 + hl.2))
                  ("site.webmanifest".toList)) = true := by
              have h1b : strIncludes (html.take (hl.1 + hl.2)
                  ++ headInsertion color ++ html.drop (hl.1 + hl.2))
                    ("apple-touch-icon".toList) = true :=
                decide_eq_true hsig
              rw [h1b, Bool.true_or]
            simp only [handleIntegrateIconsHTML]
            rw [if_pos hb2]

/-- Witness for `integrateIconsHTML_idempotent`: a file already containing
`site.webmanifest` is reported already-present, and on the fixture with a
`<head>` tag the first run writes a changed file that the second run
reports already-present. -/
theorem integrateIconsHTML_idempotent_witness :
    handleIntegrateIconsHTML ("#5bbad5".toList)
        ("<p>site.webmanifest</p>".toList)
      = IntegrationResult.alreadyPresent
    ∧ ∃ out, handleIntegrateIconsHTML ("#5bbad5".toList) htmlFixture
          = IntegrationResult.written out
        ∧ out ≠ htmlFixture
        ∧ handleIntegrateIconsHTML ("#5bbad5".toList) out
          = IntegrationResult.alreadyPresent := by
  constructor
  · exact (integrateIconsHTML_idempotent ("#5bbad5".toList)
      ("<p>site.webmanifest</p>".toList)).1 (Or.inr (by decide))
  · obtain ⟨out, hout⟩ :=
      (integrateIconsHTML_idempotent ("#5bbad5".toList) htmlFixture).2.1
        (by decide) (by decide) 6 6 (by decide)
    obtain ⟨hne, hsecond⟩ :=
      (integrateIconsHTML_idempotent ("#5bbad5".toList) htmlFixture).2.2
        (by decide) out hout
    exact ⟨out, hout, hne, hsecond⟩

/-- C9: when the integrator splices into a file with a `<head ...>` tag, the
inserted text is the literal two-character backslash-n sequence followed by
two spaces, then the icon-tag block unchanged (the split on the literal
backslash-n delimiter finds no occurrence and adds no per-line
indentation), then a literal backslash-n; neither delimiter contains a real
newline character. -/
theorem headSplice_inserts_literal_backslash_n (color html : List Char)
    (i len : Nat) (hc : ('\\' : Char) ∉ color)
    (hs1 : strIncludes html ("apple-touch-icon".toList) = false)
    (hs2 : strIncludes html ("site.webmanifest".toList) = false)
    (hfind : findHead html = some (i, len)) :
    handleIntegrateIconsHTML color html
      = IntegrationResult.written (html.take (i + len)
          ++ (('\\' :: 'n' :: ' ' :: ' ' :: []) ++ iconTags color
              ++ ('\\' :: 'n' :: []))
          ++ html.drop (i + len))
    ∧ ('\n' : Char) ∉ ('\\' :: 'n' :: ' ' :: ' ' :: ([] : List Char))
    ∧ ('\n' : Char) ∉ ('\\' :: 'n' :: ([] : List Char)) := by
  refine ⟨?_, by decide, by decide⟩
  have hmain : handleIntegrateIconsHTML color html
      = IntegrationResult.written (html.take (i + len)
          ++ headInsertion color ++ html.drop (i + len)) := by
    simp only [handleIntegrateIconsHTML, hfind]
    rw [if_neg (by rw [hs1, hs2]; exact Bool.false_ne_true)]
  rw [hmain, headInsertion_eq color hc]
  rfl

/-- Witness for `headSplice_inserts_literal_backslash_n` on the concrete
fixture with the default color. -/
theorem headSplice_inserts_literal_backslash_n_witness :
    handleIntegrateIconsHTML ("#5bbad5".toList) htmlFixture
      = IntegrationResult.written (htmlFixture.take 12
          ++ (('\\' :: 'n' :: ' ' :: ' ' :: []) ++ iconTags ("#5bbad5".toList)
              ++ ('\\' :: 'n' :: []))
          ++ htmlFixture.drop 12) :=
  (headSplice_inserts_literal_backslash_n ("#5bbad5".toList) htmlFixture 6 6
    (by decide) (by decide) (by decide) (by decide)).1

/-- Helper: unfolding `replaceAttr` on the empty string. -/
theorem replaceAttr_nil (key color : List Char) :
    replaceAttr key color [] = [] := by
  rw [replaceAttr]

/-- Helper: unfolding `replaceAttr` when the key does not match here. -/
theorem replaceAttr_cons_neg (key color : List Char) (c : Char)
    (rest : List Char) (hnp : ¬ key.isPrefixOf (c :: rest) = true) :
    replaceAttr key color (c :: rest) = c :: replaceAttr key color rest := by
  rw [replaceAttr, if_neg hnp]

/-- Helper: unfolding `replaceAttr` at a full pattern match. -/
theorem replaceAttr_cons_match (key color : List Char) (c : Char)
    (rest v after : List Char)
    (hp : key.isPrefixOf (c :: rest) = true)
    (hsp : splitAtQuote ((c :: rest).drop key.length) = some (v, after)) :
    replaceAttr key color (c :: rest)
      = key ++ color ++ '"' :: replaceAttr key color after := by
  rw [replaceAttr, if_pos hp]
  split
  · next va heq =>
      rw [hsp] at heq
      injection heq with h2
      rw [← h2]
  · next heq =>
      rw [hsp] at heq
      exact Option.noConfusion heq

/-- Helper: `takeWhile` up to the first quote recovers a quote-free block. -/
theorem takeWhile_no_quote (v w : List Char) (hv : ('"' : Char) ∉ v) :
    (v ++ '"' :: w).takeWhile (fun c => c ≠ '"') = v := by
  induction v with
  | nil =>
      rw [List.nil_append, List.takeWhile_cons_of_neg (by decide)]
  | cons c v ih =>
      have hc : c ≠ '"' := fun hcq => hv (hcq ▸ List.mem_cons_self c v)
      rw [List.cons_append,
        List.takeWhile_cons_of_pos (by exact decide_eq_true hc),
        ih (fun hm => hv (List.mem_cons_of_mem c hm))]

/-- Helper: `dropWhile` up to the first quote lands on the quote. -/
theorem dropWhile_no_quote (v w : List Char) (hv : ('"' : Char) ∉ v) :
    (v ++ '"' :: w).dropWhile (fun c => c ≠ '"') = '"' :: w := by
  induction v with
  | nil =>
      rw [List.nil_append, List.dropWhile_cons_of_neg (by decide)]
  | cons c v ih =>
      have hc : c ≠ '"' := fun hcq => hv (hcq ▸ List.mem_cons_self c v)
      rw [List.cons_append,
        List.dropWhile_cons_of_pos (by exact decide_eq_true hc),
        ih (fun hm => hv (List.mem_cons_of_mem c hm))]

/-- Helper: the quote scanner splits a quote-free value from the remainder. -/
theorem splitAtQuote_clean (v w : List Char) (hv : ('"' : Char) ∉ v) :
    splitAtQuote (v ++ '"' :: w) = some (v, w) := by
  unfold splitAtQuote
  rw [if_pos (by simp), takeWhile_no_quote v w hv, dropWhile_no_quote v w hv]
  rfl

/-- Helper: the replacement pass is the identity on text without the key. -/
theorem replaceAttr_no_key_occurrence (key color : List Char) (s : List Char)
    (h : ¬ key <:+: s) : replaceAttr key color s = s := by
  induction s with
  | nil => exact replaceAttr_nil key color
  | cons c rest ih =>
      have hnp : ¬ key.isPrefixOf (c :: rest) = true := fun hp =>
        h (List.IsPrefix.isInfix (List.isPrefixOf_iff_prefix.mp hp))
      rw [replaceAttr_cons_neg key color c rest hnp,
        ih (fun hinf => h (List.infix_cons hinf))]

/-- Helper: the replacement pass at an immediate pattern occurrence. -/
theorem replaceAttr_key_match (key color v rest : List Char)
    (hkey : key ≠ []) (hv : ('"' : Char) ∉ v) :
    replaceAttr key color (key ++ (v ++ '"' :: rest))
      = key ++ color ++ '"' :: replaceAttr key color rest := by
  have hp : key.isPrefixOf (key ++ (v ++ '"' :: rest)) = true :=
    List.isPrefixOf_iff_prefix.mpr (List.prefix_append _ _)
  have hsp : splitAtQuote ((key ++ (v ++ '"' :: rest)).drop key.length)
      = some (v, rest) := by
    rw [List.drop_left]
    exact splitAtQuote_clean v rest hv
  cases hk : key with
  | nil => exact absurd hk hkey
  | cons k0 kt =>
      subst hk
      show replaceAttr (k0 :: kt) color (k0 :: (kt ++ (v ++ '"' :: rest)))
          = (k0 :: kt) ++ color ++ '"' :: replaceAttr (k0 :: kt) color rest
      exact replaceAttr_cons_match (k0 :: kt) color k0
        (kt ++ (v ++ '"' :: rest)) v rest hp hsp

/-- Helper: scanning past a clean leading block `a`, the pass rewrites the
first pattern occurrence and continues after it.  Requires that the key has
no self-overlap, so no occurrence can span the boundary of `a` and the
genuine occurrence. -/
theorem replaceAttr_scan (key color : List Char) (hkey : key ≠ [])
    (hnso : NoSelfOverlap key) :
    ∀ (a : List Char), ¬ key <:+: a → ∀ (v rest : List Char),
      ('"' : Char) ∉ v →
      replaceAttr key color (a ++ (key ++ (v ++ '"' :: rest)))
        = a ++ (key ++ color ++ '"' :: replaceAttr key color rest) := by
  intro a
  induction a with
  | nil =>
      intro _ v rest hv
      simp only [List.nil_append]
      exact replaceAttr_key_match key color v rest hkey hv
  | cons c a2 ih =>
      intro ha v rest hv
      have hnp : ¬ key.isPrefixOf
          (c :: (a2 ++ (key ++ (v ++ '"' :: rest)))) = true := by
        intro hp
        have hpre := List.isPrefixOf_iff_prefix.mp hp
        have htake := List.prefix_iff_eq_take.mp hpre
        rcases le_or_lt key.length (c :: a2).length with hle | hgt
        · have hsplit : ((c :: a2) ++ (key ++ (v ++ '"' :: rest))).take
              key.length = (c :: a2).take key.length := by
            rw [List.take_append_eq_append_take,
              Nat.sub_eq_zero_of_le hle]
            simp
          have hkey2 : key <+: (c :: a2) :=
            List.prefix_iff_eq_take.mpr (htake.trans hsplit)
          exact ha hkey2.isInfix
        · have hsplit : ((c :: a2) ++ (key ++ (v ++ '"' :: rest))).take
              key.length
              = (c :: a2) ++ key.take (key.length - (c :: a2).length) := by
            rw [List.take_append_eq_append_take]
            congr 1
            · exact List.take_of_length_le (Nat.le_of_lt hgt)
            · rw [List.take_append_eq_append_take]
              have hz : key.length - (c :: a2).length - key.length = 0 := by
                omega
              rw [hz]
              simp
          have hkeyeq : key
              = (c :: a2) ++ key.take (key.length - (c :: a2).length) :=
            htake.trans hsplit
          have hdrop : key.drop (c :: a2).length
              = key.take (key.length - (c :: a2).length) := by
            conv_lhs => rw [hkeyeq]
            exact List.drop_left _ _
          exact hnso (c :: a2).length hgt (by simp) hdrop
      show replaceAttr key color (c :: (a2 ++ (key ++ (v ++ '"' :: rest))))
          = c :: (a2 ++ (key ++ color ++ '"' :: replaceAttr key color rest))
      rw [replaceAttr_cons_neg key color c _ hnp,
        ih (fun hinf => ha (List.infix_cons hinf)) v rest hv]

/-- Helper: one replacement pass rewrites every named pattern occurrence of
a decomposed text: each clean segment is free of the key and each value is
quote-free, so the pass substitutes the color into every occurrence and
leaves everything else unchanged. -/
theorem replaceAttr_renderAttrs (key c : List Char) (hkey : key ≠ [])
    (hnso : NoSelfOverlap key) :
    ∀ (l : List (List Char × List Char)) (tail : List Char),
      (∀ p ∈ l, ¬ key <:+: p.1 ∧ ('"' : Char) ∉ p.2) →
      ¬ key <:+: tail →
      replaceAttr key c (renderAttrs key l tail)
        = renderAttrs key (l.map (fun p => (p.1, c))) tail := by
  intro l
  induction l with
  | nil =>
      intro tail _ htail
      exact replaceAttr_no_key_occurrence key c tail htail
  | cons tv rest ih =>
      intro tail hall htail
      have h1 := (hall tv (List.mem_cons_self tv rest)).1
      have h2 := (hall tv (List.mem_cons_self tv rest)).2
      show replaceAttr key c
          (tv.1 ++ (key ++ (tv.2 ++ '"' :: renderAttrs key rest tail)))
        = tv.1 ++ (key ++ (c ++ '"' ::
            renderAttrs key (rest.map (fun p => (p.1, c))) tail))
      rw [replaceAttr_scan key c hkey hnso tv.1 h1 tv.2 _ h2,
        ih tail (fun p hp => hall p (List.mem_cons_of_mem tv hp)) htail,
        List.append_assoc]

/-- C7 counterexample: `pinnedTabTrickSrc` contains the attributes
`fill="#112233"` and `stroke="#445566"` verbatim, yet the generated file
still contains the original color `#112233`: the leftmost `fill="[^"]*"`
match starts inside the `alt="fill="` value and swallows the genuine fill
attribute's opening quote, so the fill value is never replaced — refuting
"every fill attribute value replaced" and "no trace of the original colors"
for this source. -/
theorem pinnedTab_spurious_fill_counterexample :
    (fillKey ++ "#112233".toList ++ ['"']) <:+: pinnedTabTrickSrc
    ∧ (strokeKey ++ "#445566".toList ++ ['"']) <:+: pinnedTabTrickSrc
    ∧ generateSafariPinnedTab pinnedTabTrickSrc (some ("#5bbad5".toList))
        = pinnedTabTrickOut
    ∧ ("#112233".toList) <:+: pinnedTabTrickOut
    ∧ ¬ (fillKey ++ "#5bbad5".toList ++ ['"'] ++ " ".toList
          ++ strokeKey ++ "#5bbad5".toList ++ ['"']) <:+: pinnedTabTrickOut := by
  refine ⟨by decide, by decide, ?_, by decide, by decide⟩
  have hfill := replaceAttr_renderAttrs fillKey ("#5bbad5".toList)
    (by decide) (by unfold NoSelfOverlap; decide)
    [("<a alt=\"".toList, " fill=".toList)]
    ("#112233\" stroke=\"#445566\"/>".toList)
    (by decide) (by decide)
  have hstroke := replaceAttr_renderAttrs strokeKey ("#5bbad5".toList)
    (by decide) (by unfold NoSelfOverlap; decide)
    [("<a alt=\"fill=\"#5bbad5\"#112233\" ".toList, "#445566".toList)]
    ("/>".toList)
    (by decide) (by decide)
  show replaceAttr strokeKey ("#5bbad5".toList)
      (replaceAttr fillKey ("#5bbad5".toList) pinnedTabTrickSrc)
    = pinnedTabTrickOut
  have hsrc : pinnedTabTrickSrc
      = renderAttrs fillKey [("<a alt=\"".toList, " fill=".toList)]
          ("#112233\" stroke=\"#445566\"/>".toList) := by decide
  rw [hsrc, hfill]
  have hmid : renderAttrs fillKey
      ([("<a alt=\"".toList, " fill=".toList)].map
        (fun p => (p.1, "#5bbad5".toList)))
      ("#112233\" stroke=\"#445566\"/>".toList)
      = renderAttrs strokeKey
          [("<a alt=\"fill=\"#5bbad5\"#112233\" ".toList, "#445566".toList)]
          ("/>".toList) := by decide
  rw [hmid, hstroke]
  decide

/-- C7 (amended): for every source decomposing into clean segments and any
number of `fill="..."` attributes in any positions (segments free of
`fill="`, values quote-free), whose fill-replaced text likewise decomposes
for `stroke="..."`, and every accent color without a `$` character (so the
JavaScript replacement string is taken literally), the generated
pinned-tab file is the source with every fill attribute value and every
stroke attribute value replaced by the accent color. -/
theorem generateSafariPinnedTab_replaces_every_attr
    (lf : List (List Char × List Char)) (tailf : List Char)
    (ls : List (List Char × List Char)) (tails : List Char)
    (c : List Char)
    (hdollar : ('$' : Char) ∉ c)
    (hf : ∀ p ∈ lf, ¬ fillKey <:+: p.1 ∧ ('"' : Char) ∉ p.2)
    (hft : ¬ fillKey <:+: tailf)
    (hdecomp : renderAttrs fillKey (lf.map (fun p => (p.1, c))) tailf
        = renderAttrs strokeKey ls tails)
    (hs : ∀ p ∈ ls, ¬ strokeKey <:+: p.1 ∧ ('"' : Char) ∉ p.2)
    (hst : ¬ strokeKey <:+: tails) :
    generateSafariPinnedTab (renderAttrs fillKey lf tailf) (some c)
      = renderAttrs strokeKey (ls.map (fun p => (p.1, c))) tails := by
  show replaceAttr strokeKey c
      (replaceAttr fillKey c (renderAttrs fillKey lf tailf))
    = renderAttrs strokeKey (ls.map (fun p => (p.1, c))) tails
  rw [replaceAttr_renderAttrs fillKey c (by decide)
      (by unfold NoSelfOverlap; decide) lf tailf hf hft,
    hdecomp,
    replaceAttr_renderAttrs strokeKey c (by decide)
      (by unfold NoSelfOverlap; decide) ls tails hs hst]

/-- Witness for `generateSafariPinnedTab_replaces_every_attr`: a source
with a stroke attribute first and two fill attributes after it; every one
of the three attribute values is replaced by the accent color and no
original value survives. -/
theorem generateSafariPinnedTab_replaces_every_attr_witness :
    generateSafariPinnedTab
        ("<c stroke=\"#445566\" fill=\"#112233\" fill=\"#abc\"/>".toList)
        (some ("#5bbad5".toList))
      = ("<c stroke=\"#5bbad5\" fill=\"#5bbad5\" fill=\"#5bbad5\"/>".toList)
    ∧ ¬ ("#112233".toList) <:+:
        ("<c stroke=\"#5bbad5\" fill=\"#5bbad5\" fill=\"#5bbad5\"/>".toList)
    ∧ ¬ ("#445566".toList) <:+:
        ("<c stroke=\"#5bbad5\" fill=\"#5bbad5\" fill=\"#5bbad5\"/>".toList)
    ∧ ¬ ("#abc".toList) <:+:
        ("<c stroke=\"#5bbad5\" fill=\"#5bbad5\" fill=\"#5bbad5\"/>".toList) := by
  refine ⟨?_, by decide, by decide, by decide⟩
  exact generateSafariPinnedTab_replaces_every_attr
    [("<c stroke=\"#445566\" ".toList, "#112233".toList),
      (" ".toList, "#abc".toList)]
    ("/>".toList)
    [("<c ".toList, "#445566".toList)]
    (" fill=\"#5bbad5\" fill=\"#5bbad5\"/>".toList)
    ("#5bbad5".toList)
    (by decide) (by decide) (by decide) (by decide) (by decide) (by decide)

end WebIcons
